import Mathlib

/-!
Shallow embedding of the API Latency Monitor core (the `LatencyMonitor`
class of monitor.js together with the provider registry of providers.js).

JavaScript numbers are modelled exactly: a finite value is an exact
rational, and the three special values `Infinity`, `-Infinity` and `NaN`
are separate constructors.  The `latency` argument of `updateStats` can be
an arbitrary JavaScript value, modelled by `JSVal` (a number, `null`,
`undefined`, or any other non-number value).  Fallible lookups return
`Option`.  All definitions are executable.
-/

namespace LatencyMon

/-- A JavaScript number: a finite value (an exact rational) or one of the
special values `Infinity`, `-Infinity`, `NaN`. -/
inductive JSNum where
  | fin (q : ℚ)
  | inf
  | negInf
  | nan
deriving DecidableEq, Repr

/-- JavaScript `isNaN` on a number (no coercion needed: in the source the
check is short-circuited behind a `typeof latency === 'number'` test). -/
def JSNum.isNaN : JSNum → Bool
  | .nan => true
  | _ => false

/-- JavaScript truthiness of a number: `0`, `-0` and `NaN` are falsy,
every other number (including the infinities) is truthy. -/
def JSNum.truthy : JSNum → Bool
  | .fin q => q != 0
  | .nan => false
  | _ => true

/-- JavaScript `a || b` restricted to number operands, as used in the
defensive defaults of monitor.js (`stats.min || Infinity` etc.). -/
def jsOr (a b : JSNum) : JSNum := if a.truthy then a else b

/-- JavaScript `n || d` on a natural-valued counter (`stats.count || 0`
etc.): only `0` is falsy. -/
def natOr (n d : ℕ) : ℕ := if n = 0 then d else n

/-- JavaScript `s || d` on a string (`provider.id || 'unknown'` in
`getStats`): only the empty string is falsy. -/
def strOr (s d : String) : String := if s = "" then d else s

/-- JavaScript number addition (`stats.total + latency`). -/
def JSNum.add : JSNum → JSNum → JSNum
  | .nan, _ => .nan
  | _, .nan => .nan
  | .inf, .negInf => .nan
  | .negInf, .inf => .nan
  | .inf, _ => .inf
  | _, .inf => .inf
  | .negInf, _ => .negInf
  | _, .negInf => .negInf
  | .fin a, .fin b => .fin (a + b)

/-- JavaScript strict `<` on numbers: any comparison involving `NaN` is
false. -/
def jsLt : JSNum → JSNum → Bool
  | .nan, _ => false
  | _, .nan => false
  | .negInf, .negInf => false
  | .negInf, _ => true
  | _, .negInf => false
  | .fin a, .fin b => decide (a < b)
  | .fin _, .inf => true
  | .inf, _ => false

/-- JavaScript `Math.min` on two numbers (`NaN` is absorbing). -/
def jsMin (a b : JSNum) : JSNum :=
  if a.isNaN || b.isNaN then .nan else if jsLt b a then b else a

/-- JavaScript `Math.max` on two numbers (`NaN` is absorbing). -/
def jsMax (a b : JSNum) : JSNum :=
  if a.isNaN || b.isNaN then .nan else if jsLt a b then b else a

/-- JavaScript `Math.round` on a finite value: round half toward positive
infinity, i.e. the floor of `q + 1/2`. -/
def jround (q : ℚ) : ℚ := ((q + 1/2).floor : ℤ)

/-- JavaScript `Math.round` on a number; the special values are fixed
points. -/
def JSNum.round : JSNum → JSNum
  | .fin q => .fin (jround q)
  | x => x

/-- JavaScript division of a number by a natural-valued counter, as in
`stats.total / stats.successes`. -/
def JSNum.divNat : JSNum → ℕ → JSNum
  | .fin q, n =>
      if n = 0 then (if q < 0 then .negInf else if 0 < q then .inf else .nan)
      else .fin (q / (n : ℚ))
  | .inf, _ => .inf
  | .negInf, _ => .negInf
  | .nan, _ => .nan

/-- A JavaScript value as passed for the `latency` argument of
`updateStats`: a number, `null`, `undefined`, or any other non-number
value. -/
inductive JSVal where
  | num (n : JSNum)
  | null
  | undef
  | other
deriving DecidableEq, Repr

/-- The per-provider statistics object of monitor.js.  History entries are
`(timestamp, latency)` pairs; `current = none` models `current: null`. -/
structure Stats where
  current : Option JSNum
  min : JSNum
  max : JSNum
  avg : JSNum
  total : JSNum
  count : ℕ
  successes : ℕ
  failures : ℕ
  history : List (ℕ × JSNum)
deriving DecidableEq, Repr

/-- The initial stats object literal built by the constructor and by
`clearStats` (`current: null, min: Infinity, max: 0, avg: 0, total: 0,
count: 0, successes: 0, failures: 0, history: []`). -/
def initStats : Stats :=
  { current := none, min := .inf, max := .fin 0, avg := .fin 0, total := .fin 0,
    count := 0, successes := 0, failures := 0, history := [] }

/-- Translation of `updateStats(provider, latency, success)` from
monitor.js, acting on the stats object (the `timestamp` parameter stands
for the `Date.now()` call).  The success branch is guarded by
`success && typeof latency === 'number' && !isNaN(latency)`; the history
push is followed by a `shift()` when the length exceeds 100. -/
def updateStats (ts : ℕ) (latency : JSVal) (success : Bool) (s : Stats) : Stats :=
  let count1 := natOr s.count 0 + 1
  match success, latency with
  | true, .num l =>
    if l.isNaN then
      { s with count := count1, failures := natOr s.failures 0 + 1, current := none }
    else
      let successes1 := natOr s.successes 0 + 1
      let total1 := (jsOr s.total (.fin 0)).add l
      let avg1 := if 0 < successes1 then (total1.divNat successes1).round else s.avg
      let min1 := jsMin (jsOr s.min .inf) l
      let max1 := jsMax (jsOr s.max (.fin 0)) l
      let hist1 := s.history ++ [(ts, l)]
      let hist2 := if 100 < hist1.length then hist1.drop 1 else hist1
      { s with count := count1, successes := successes1, current := some l,
               total := total1, avg := avg1, min := min1, max := max1,
               history := hist2 }
  | _, _ =>
    { s with count := count1, failures := natOr s.failures 0 + 1, current := none }

/-- Provider status enum of monitor.js (`idle, testing, online, offline`). -/
inductive Status where
  | idle
  | testing
  | online
  | offline
deriving DecidableEq, Repr

/-- Test mode enum (`ping, simple, full`). -/
inductive TestMode where
  | ping
  | simple
  | full
deriving DecidableEq, Repr

/-- An identity record of the provider registry (providers.js). -/
structure ProviderRecord where
  id : String
  name : String
  endpoint : String
  pingPath : String
  color : String
  requiresAuth : Bool
deriving DecidableEq, Repr

/-- A runtime provider: the spread of a registry record plus the mutable
`stats` and `status` fields added by the constructor. -/
structure Provider where
  id : String
  name : String
  endpoint : String
  pingPath : String
  color : String
  requiresAuth : Bool
  stats : Stats
  status : Status
deriving DecidableEq, Repr

/-- The spread `{ ...provider, stats: {...}, status: 'idle' }` performed by
the constructor on one registry record. -/
def instantiateRecord (r : ProviderRecord) : Provider :=
  { id := r.id, name := r.name, endpoint := r.endpoint, pingPath := r.pingPath,
    color := r.color, requiresAuth := r.requiresAuth,
    stats := initStats, status := .idle }

/-- The monitor state (`LatencyMonitor` instance fields that the verified
operations touch). -/
structure Monitor where
  providers : List Provider
  isMonitoring : Bool
  testMode : TestMode
  totalTests : ℕ
deriving DecidableEq, Repr

/-- Translation of the `LatencyMonitor` constructor: each registry entry
is mapped (a null/undefined entry maps to null, any object is spread into
a runtime provider) and the nulls are removed by `.filter(Boolean)`.  A
null registry entry is modelled as `none`. -/
def mkMonitor (registry : List (Option ProviderRecord)) : Monitor :=
  { providers := (registry.map (fun r => r.map instantiateRecord)).filterMap id,
    isMonitoring := false, testMode := .ping, totalTests := 0 }

/-- Translation of `clearStats()`: every provider receives a fresh copy of
the initial stats literal and the `idle` status, and `totalTests` is reset
to 0. -/
def clearStats (m : Monitor) : Monitor :=
  { m with
    providers := m.providers.map (fun p => { p with stats := initStats, status := .idle }),
    totalTests := 0 }

/-- The filter predicate of `getFastestProvider` and `getAverageLatency`:
`typeof p.stats.current === 'number' && p.stats.current !== null`.  A
stored number (`some n`, even `NaN`) passes; `null` (`none`) does not. -/
def currentIsNumber (p : Provider) : Bool :=
  match p.stats.current with
  | some _ => true
  | none => false

/-- The `current` latency of a provider as a number (only used on
providers that pass `currentIsNumber`). -/
def curVal (p : Provider) : JSNum := p.stats.current.getD .nan

/-- The `online` list computed inside `getFastestProvider`. -/
def onlineProviders (m : Monitor) : List Provider :=
  m.providers.filter currentIsNumber

/-- Translation of `getFastestProvider()`: filter the providers with a
numeric `current`, then `reduce` keeping the accumulator unless the
candidate is strictly smaller (JavaScript `reduce` without a seed starts
from the first element). -/
def getFastestProvider (m : Monitor) : Option Provider :=
  match onlineProviders m with
  | [] => none
  | f :: rest =>
      some (rest.foldl (fun fastest c => if jsLt (curVal c) (curVal fastest) then c else fastest) f)

/-- Result of awaiting the probe strategy plus the latency measurement in
`testProvider`: either the probe settled with a success flag and an
elapsed high-resolution time, or the awaited call threw. -/
inductive ProbeOutcome where
  | ok (success : Bool) (elapsed : JSNum)
  | err
deriving DecidableEq, Repr

/-- Translation of the body of `testProvider(provider)` acting on one
provider: the elapsed time is rounded, a non-numeric/NaN/negative latency
throws (`Invalid latency measurement`) and is caught by the surrounding
try/catch, which records a failure; otherwise the success flag selects the
success or failure update.  The transient `testing` status is overwritten
before the function returns and is not part of the final state. -/
def testProviderStep (ts : ℕ) (o : ProbeOutcome) (p : Provider) : Provider :=
  match o with
  | .err => { p with stats := updateStats ts .null false p.stats, status := .offline }
  | .ok success elapsed =>
      let latency := elapsed.round
      if latency.isNaN || jsLt latency (.fin 0) then
        { p with stats := updateStats ts .null false p.stats, status := .offline }
      else if success then
        { p with stats := updateStats ts (.num latency) true p.stats, status := .online }
      else
        { p with stats := updateStats ts .null false p.stats, status := .offline }

/-- Translation of one probe round, `runTests()`: every provider is tested
(each `testProvider` call has its own error handler, and the round joins
them with `Promise.allSettled`, so every per-provider update is applied
whatever the other providers do), after which `totalTests` increments by
one.  The i-th outcome is the settlement of the i-th provider's probe. -/
def runTests (ts : ℕ) (outcomes : List ProbeOutcome) (m : Monitor) : Monitor :=
  { m with providers := List.zipWith (testProviderStep ts) outcomes m.providers,
           totalTests := m.totalTests + 1 }

/-- How the `fetch` promise inside `pingTest` settles. -/
inductive FetchResult where
  | completes
  | abortError
  | otherError
deriving DecidableEq, Repr

/-- Translation of `pingTest(provider)`: a provider with a falsy
`endpoint` or `pingPath` returns false immediately; without
`AbortController` the fetch runs unguarded and any rejection reaches the
outer catch, which returns false; with `AbortController`, a completed
fetch returns true, a rejection named `AbortError` returns false, and any
other rejection returns true. -/
def pingTest (p : Provider) (acAvailable : Bool) (fr : FetchResult) : Bool :=
  if p.endpoint = "" || p.pingPath = "" then false
  else if !acAvailable then
    match fr with
    | .completes => true
    | .abortError => false
    | .otherError => false
  else
    match fr with
    | .completes => true
    | .abortError => false
    | .otherError => true

/-- Folding a sequence of successful probes with finite latencies into the
initial stats, as in the spec's property over `L1..Ln` (timestamps are
irrelevant to the numeric fields). -/
def foldSucc (L : List ℚ) : Stats :=
  L.foldl (fun s l => updateStats 0 (.num (.fin l)) true s) initStats

/-- Folding an arbitrary sequence of probe events
`(timestamp, latency, success)` into a stats state. -/
def foldProbes (evs : List (ℕ × JSVal × Bool)) (s : Stats) : Stats :=
  evs.foldl (fun s e => updateStats e.1 e.2.1 e.2.2 s) s

/-- The latency recorded by the success branch of `updateStats` for a
given `(latency, success)` argument pair, or `none` when the failure
branch runs (`success && typeof latency === 'number' && !isNaN(latency)`
is the branch condition). -/
def recordedSuccess : JSVal → Bool → Option JSNum
  | .num n, true => if n.isNaN then none else some n
  | _, _ => none

/-- The chronological list of history entries contributed by a sequence of
probe events: one `(timestamp, latency)` entry per event that takes the
success branch. -/
def successEntries (evs : List (ℕ × JSVal × Bool)) : List (ℕ × JSNum) :=
  evs.filterMap (fun e => (recordedSuccess e.2.1 e.2.2).map (fun n => (e.1, n)))

/-- The suffix of the most recent `n` elements of a list. -/
def takeLast (l : List α) (n : ℕ) : List α := l.drop (l.length - n)

/-- Minimum of a nonempty list of rationals (0 for the empty list). -/
def listMinQ : List ℚ → ℚ
  | [] => 0
  | a :: rest => rest.foldl min a

/-- Maximum of a nonempty list of rationals (0 for the empty list). -/
def listMaxQ : List ℚ → ℚ
  | [] => 0
  | a :: rest => rest.foldl max a

/-!
Reference-aware model of `getStats()` for the copy-out claim.  A
JavaScript array is a heap object; the object spread `{ ...provider.stats }`
copies the field values of the stats object into a fresh object, and the
`history` field value is a reference to the (not copied) array.  Scalar
fields are modelled as record values (the spread copies them), while each
history array lives in a store indexed by its reference. -/

/-- A stats object whose `history` field is a reference into the array
store. -/
structure RStats where
  current : Option JSNum
  min : JSNum
  max : JSNum
  avg : JSNum
  total : JSNum
  count : ℕ
  successes : ℕ
  failures : ℕ
  historyRef : ℕ
deriving DecidableEq, Repr

/-- A runtime provider in the reference-aware model. -/
structure RProvider where
  id : String
  name : String
  endpoint : String
  pingPath : String
  color : String
  status : Status
  stats : RStats
deriving DecidableEq, Repr

/-- The heap of history arrays, indexed by reference. -/
structure ArrStore where
  arr : ℕ → List (ℕ × JSNum)

/-- Monitor state in the reference-aware model. -/
structure RMonitor where
  providers : List RProvider
  totalTests : ℕ

/-- One element of the snapshot returned by `getStats()`: the identity
fields (with their `|| default` fallbacks) and a fresh stats object whose
field values are copied from the provider's stats object (so the
`historyRef` value, a reference, is copied — the array itself is not). -/
structure Snapshot where
  id : String
  name : String
  color : String
  status : Status
  stats : RStats
deriving DecidableEq, Repr

/-- Translation of `getStats()`: map each provider to a snapshot record;
`stats: { ...provider.stats }` copies the stats field values into a fresh
object (record value), including the history array reference. -/
def getStats (m : RMonitor) : List Snapshot :=
  m.providers.map (fun p =>
    { id := strOr p.id "unknown", name := strOr p.name "Unknown",
      color := strOr p.color "#000000", status := p.status, stats := p.stats })

/-- A renderer mutation of a history array through a reference it holds:
push one entry onto the array at reference `r`. -/
def pushHistory (σ : ArrStore) (r : ℕ) (e : ℕ × JSNum) : ArrStore :=
  ⟨fun i => if i = r then σ.arr r ++ [e] else σ.arr i⟩

/-- The monitor-internal history of provider `i` as read through the
provider's own stats object. -/
def internalHistory (m : RMonitor) (σ : ArrStore) (i : ℕ) : List (ℕ × JSNum) :=
  match m.providers.get? i with
  | some p => σ.arr p.stats.historyRef
  | none => []

/-- A sample registry record (the first entry of providers.js). -/
def sampleRecord : ProviderRecord :=
  { id := "openai", name := "OpenAI", endpoint := "https://api.openai.com",
    pingPath := "/v1/models", color := "#10a37f", requiresAuth := false }

/-- The runtime provider built from `sampleRecord`. -/
def sampleProvider : Provider := instantiateRecord sampleRecord

/-- A registry record with a falsy required field (empty `id`). -/
def badRecord : ProviderRecord :=
  { id := "", name := "Broken", endpoint := "https://bad.example", pingPath := "/",
    color := "#123456", requiresAuth := false }

/-- A concrete reference-model stats object whose history array lives at
reference 0. -/
def rstats0 : RStats :=
  { current := none, min := .inf, max := .fin 0, avg := .fin 0, total := .fin 0,
    count := 0, successes := 0, failures := 0, historyRef := 0 }

/-- A concrete reference-model provider. -/
def rprov0 : RProvider :=
  { id := "openai", name := "OpenAI", endpoint := "https://api.openai.com",
    pingPath := "/v1/models", color := "#10a37f", status := .idle, stats := rstats0 }

/-- A concrete reference-model monitor with one provider. -/
def rmon0 : RMonitor := { providers := [rprov0], totalTests := 0 }

/-- A store in which every history array is empty. -/
def store0 : ArrStore := ⟨fun _ => []⟩

/-- The snapshot record `getStats` produces for `rprov0`. -/
def snap0 : Snapshot :=
  { id := "openai", name := "OpenAI", color := "#10a37f", status := .idle, stats := rstats0 }

/-- The accumulator fold of `getFastestProvider` (JavaScript `reduce`
without a seed, starting from the first element of the filtered list). -/
def pickFastest (f : Provider) (rest : List Provider) : Provider :=
  rest.foldl (fun fastest c => if jsLt (curVal c) (curVal fastest) then c else fastest) f

/-- A provider with a present `current` of 120ms, registered first. -/
def provA : Provider :=
  { instantiateRecord sampleRecord with
      id := "A",
      stats := { initStats with current := some (.fin 120) } }

/-- A provider with the same `current` of 120ms, registered second. -/
def provB : Provider :=
  { instantiateRecord sampleRecord with
      id := "B",
      stats := { initStats with current := some (.fin 120) } }

/-- A monitor holding the two tied providers in registry order. -/
def monAB : Monitor :=
  { providers := [provA, provB], isMonitoring := false,
    testMode := .ping, totalTests := 0 }

/-!  Basic lemmas about the JavaScript primitives. -/

theorem natOr_zero (n : ℕ) : natOr n 0 = n := by
  by_cases h : n = 0 <;> simp [natOr, h]

theorem jsOr_fin_zero (q : ℚ) : jsOr (.fin q) (.fin 0) = .fin q := by
  by_cases h : q = 0 <;> simp [jsOr, JSNum.truthy, h]

theorem jsOr_fin_inf {q : ℚ} (h : q ≠ 0) : jsOr (.fin q) .inf = .fin q := by
  simp [jsOr, JSNum.truthy, h]

theorem jsMin_fin_fin (a b : ℚ) : jsMin (.fin a) (.fin b) = .fin (min a b) := by
  rcases lt_or_le b a with h | h
  · simp [jsMin, JSNum.isNaN, jsLt, h, min_eq_right h.le]
  · simp [jsMin, JSNum.isNaN, jsLt, not_lt.mpr h, min_eq_left h]

theorem jsMax_fin_fin (a b : ℚ) : jsMax (.fin a) (.fin b) = .fin (max a b) := by
  rcases lt_or_le a b with h | h
  · simp [jsMax, JSNum.isNaN, jsLt, h, max_eq_right h.le]
  · simp [jsMax, JSNum.isNaN, jsLt, not_lt.mpr h, max_eq_left h]

theorem jsMin_inf_fin (a : ℚ) : jsMin .inf (.fin a) = .fin a := by
  simp [jsMin, JSNum.isNaN, jsLt]

theorem divNat_fin_succ (q : ℚ) (n : ℕ) :
    (JSNum.fin q).divNat (n + 1) = .fin (q / ((n : ℚ) + 1)) := by
  simp [JSNum.divNat]

/-!  Equational description of the two branches of `updateStats`. -/

theorem updateStats_success (ts : ℕ) (l : JSNum) (s : Stats) (hl : l.isNaN = false) :
    updateStats ts (.num l) true s =
    { s with count := natOr s.count 0 + 1,
             successes := natOr s.successes 0 + 1,
             current := some l,
             total := (jsOr s.total (.fin 0)).add l,
             avg := (((jsOr s.total (.fin 0)).add l).divNat (natOr s.successes 0 + 1)).round,
             min := jsMin (jsOr s.min .inf) l,
             max := jsMax (jsOr s.max (.fin 0)) l,
             history := if 100 < (s.history ++ [(ts, l)]).length
                        then (s.history ++ [(ts, l)]).drop 1
                        else s.history ++ [(ts, l)] } := by
  simp [updateStats, hl]

theorem updateStats_failure (ts : ℕ) (l : JSVal) (suc : Bool) (s : Stats)
    (h : recordedSuccess l suc = none) :
    updateStats ts l suc s =
    { s with count := natOr s.count 0 + 1,
             failures := natOr s.failures 0 + 1,
             current := none } := by
  cases suc with
  | false => cases l <;> simp [updateStats]
  | true =>
    cases l with
    | num n =>
      by_cases hn : n.isNaN
      · simp [updateStats, hn]
      · simp [recordedSuccess, hn] at h
    | null => simp [updateStats]
    | undef => simp [updateStats]
    | other => simp [updateStats]

/-- C3: every call to `updateStats`, for any arguments, increments `count`
by one together with exactly one of `successes` or `failures`, and hence
preserves the invariant `count == successes + failures`. -/
theorem C3_count_invariant (ts : ℕ) (l : JSVal) (suc : Bool) (s : Stats)
    (hinv : s.count = s.successes + s.failures) :
    (updateStats ts l suc s).count = s.count + 1 ∧
    (((updateStats ts l suc s).successes = s.successes + 1 ∧
      (updateStats ts l suc s).failures = s.failures) ∨
     ((updateStats ts l suc s).successes = s.successes ∧
      (updateStats ts l suc s).failures = s.failures + 1)) ∧
    (updateStats ts l suc s).count =
      (updateStats ts l suc s).successes + (updateStats ts l suc s).failures := by
  rcases h : recordedSuccess l suc with - | n
  · rw [updateStats_failure ts l suc s h]
    simp [natOr_zero]
    omega
  · have hcase : l = .num n ∧ suc = true ∧ n.isNaN = false := by
      cases suc <;> cases l <;> simp_all [recordedSuccess]
      exact h.2 ▸ h.1
    rcases hcase with ⟨rfl, rfl, hn⟩
    rw [updateStats_success ts n s hn]
    simp [natOr_zero]
    omega

/-- Witness for C3 at a concrete failed probe on the initial stats. -/
theorem C3_count_invariant_witness :
    (updateStats 0 .null false initStats).count =
      (updateStats 0 .null false initStats).successes +
        (updateStats 0 .null false initStats).failures :=
  (C3_count_invariant 0 .null false initStats rfl).2.2

/-- C10 counterexample: `updateStats` with `success = true` and the
non-finite number `latency = Infinity` takes the success branch
(`typeof Infinity === 'number'` and `!isNaN(Infinity)`), so `successes`
increments and `current` is set, contradicting the claim that every
non-finite latency is recorded as a failure. -/
theorem C10_counterexample :
    (updateStats 0 (.num .inf) true initStats).successes = 1 ∧
    (updateStats 0 (.num .inf) true initStats).failures = 0 ∧
    (updateStats 0 (.num .inf) true initStats).current = some .inf := by
  decide

/-- C10 amended: if `updateStats` is called with `success = true` but a
latency that is not a number or is `NaN` (`null`, `undefined`, a
non-number value, or the number `NaN`), the probe is recorded as a
failure: `count` and `failures` each increment by one, `current` is set
to null, and `successes`, `min`, `max`, `avg`, `total` and `history` are
unchanged.  (The infinities, being numbers that are not `NaN`, are
recorded as successes instead.) -/
theorem C10_amended_nonnumeric_failure (ts : ℕ) (l : JSVal) (s : Stats)
    (h : l = .null ∨ l = .undef ∨ l = .other ∨ l = .num .nan) :
    (updateStats ts l true s).count = s.count + 1 ∧
    (updateStats ts l true s).failures = s.failures + 1 ∧
    (updateStats ts l true s).current = none ∧
    (updateStats ts l true s).successes = s.successes ∧
    (updateStats ts l true s).min = s.min ∧
    (updateStats ts l true s).max = s.max ∧
    (updateStats ts l true s).avg = s.avg ∧
    (updateStats ts l true s).total = s.total ∧
    (updateStats ts l true s).history = s.history := by
  have hrec : recordedSuccess l true = none := by
    rcases h with rfl | rfl | rfl | rfl <;> simp [recordedSuccess, JSNum.isNaN]
  rw [updateStats_failure ts l true s hrec]
  simp [natOr_zero]

/-- Witness for the amended C10 at a concrete input: a `null` latency with
`success = true`, applied after one successful probe. -/
theorem C10_amended_witness :
    (updateStats 1 .null true (foldSucc [7])).failures = (foldSucc [7]).failures + 1 ∧
    (updateStats 1 .null true (foldSucc [7])).successes = (foldSucc [7]).successes ∧
    (updateStats 1 .null true (foldSucc [7])).history = (foldSucc [7]).history :=
  ⟨(C10_amended_nonnumeric_failure 1 .null (foldSucc [7]) (Or.inl rfl)).2.1,
   (C10_amended_nonnumeric_failure 1 .null (foldSucc [7]) (Or.inl rfl)).2.2.2.1,
   (C10_amended_nonnumeric_failure 1 .null (foldSucc [7]) (Or.inl rfl)).2.2.2.2.2.2.2.2⟩

/-- C5: with the timeout primitive available and a well-configured
provider, `pingTest` returns false exactly when the fetch rejected with
an `AbortError` (the 10-second timeout); a completed fetch and any
non-abort rejection both return true. -/
theorem C5_pingTest_failure_iff_abort (p : Provider) (fr : FetchResult)
    (he : p.endpoint ≠ "") (hp : p.pingPath ≠ "") :
    pingTest p true fr = false ↔ fr = .abortError := by
  cases fr <;> simp [pingTest, he, hp]

/-- Witness for C5 at the sample provider and an aborted fetch. -/
theorem C5_pingTest_witness : pingTest sampleProvider true .abortError = false :=
  (C5_pingTest_failure_iff_abort sampleProvider .abortError (by decide) (by decide)).mpr rfl

/-- C6: `clearStats` resets `totalTests` to 0 and, for every provider
position, resets the stats to the exact initial shape and the status to
idle while leaving the identity fields unchanged. -/
theorem C6_clearStats_resets (m : Monitor) (i : ℕ) (p : Provider)
    (h : m.providers.get? i = some p) :
    (clearStats m).totalTests = 0 ∧
    (clearStats m).providers.length = m.providers.length ∧
    ∃ p', (clearStats m).providers.get? i = some p' ∧
      p'.stats.current = none ∧ p'.stats.min = .inf ∧ p'.stats.max = .fin 0 ∧
      p'.stats.avg = .fin 0 ∧ p'.stats.total = .fin 0 ∧ p'.stats.count = 0 ∧
      p'.stats.successes = 0 ∧ p'.stats.failures = 0 ∧ p'.stats.history = [] ∧
      p'.status = .idle ∧ p'.id = p.id ∧ p'.name = p.name ∧
      p'.endpoint = p.endpoint ∧ p'.pingPath = p.pingPath ∧ p'.color = p.color := by
  refine ⟨rfl, by simp [clearStats], ?_⟩
  refine ⟨{ p with stats := initStats, status := .idle }, ?_, rfl, rfl, rfl, rfl, rfl,
    rfl, rfl, rfl, rfl, rfl, rfl, rfl, rfl, rfl, rfl⟩
  have hm : (clearStats m).providers.get? i =
      (m.providers.get? i).map (fun q => { q with stats := initStats, status := Status.idle }) := by
    simp [clearStats, List.get?_map]
  rw [hm, h]
  rfl

/-- Witness for C6 on a concrete monitor whose single provider has been
through one probe round. -/
theorem C6_clearStats_witness :
    (clearStats (mkMonitor [some sampleRecord])).totalTests = 0 :=
  (C6_clearStats_resets (mkMonitor [some sampleRecord]) 0 sampleProvider rfl).1

/-- C9 counterexample: a registry record whose required `id` field is
empty (falsy) is not dropped by the constructor — it is instantiated into
runtime provider state, and the held provider carries the empty `id`
(`validateProviders` in providers.js only logs and removes nothing; the
constructor's `.filter(Boolean)` removes null entries only). -/
theorem C9_counterexample :
    (mkMonitor [some badRecord]).providers.length = 1 ∧
    ∃ p ∈ (mkMonitor [some badRecord]).providers, p.id = "" := by
  refine ⟨rfl, ⟨instantiateRecord badRecord, ?_, rfl⟩⟩
  simp [mkMonitor]

/-- C9 amended: at monitor construction only null/undefined registry
entries are dropped; every object record — whatever its field values,
empty or not — is instantiated into runtime provider state with initial
stats and idle status.  A held provider may therefore carry empty
required fields. -/
theorem C9_amended_only_null_dropped (reg : List (Option ProviderRecord)) :
    (mkMonitor reg).providers = (reg.filterMap id).map instantiateRecord := by
  induction reg with
  | nil => rfl
  | cons r rest ih =>
    cases r with
    | none => simpa [mkMonitor] using ih
    | some a => simpa [mkMonitor] using ih

/-- C8 counterexample: the object spread in `getStats` copies the stats
field values but not the history array, so the snapshot and the monitor
share the array: pushing an entry onto the history reached through the
returned snapshot changes the monitor-internal history, contradicting the
claim that mutating any part of the snapshot leaves internal state
unchanged. -/
theorem C8_counterexample :
    (getStats rmon0).get? 0 = some snap0 ∧
    internalHistory rmon0 (pushHistory store0 snap0.stats.historyRef (5, .fin 42)) 0 ≠
      internalHistory rmon0 store0 0 := by
  decide

/-- C8 amended: the snapshot returned by `getStats` is copy-out at the
object level — each snapshot element holds a fresh stats object whose
field values equal the provider's, so replacing snapshot fields or
snapshot stats fields leaves the monitor unchanged — but the history
array is copied by reference: pushing onto it through the snapshot
appends to the monitor-internal history of that provider. -/
theorem C8_amended_shallow_copy (m : RMonitor) (σ : ArrStore) (i : ℕ)
    (p : RProvider) (s : Snapshot)
    (hp : m.providers.get? i = some p) (hs : (getStats m).get? i = some s) :
    s.stats = p.stats ∧
    ∀ e, internalHistory m (pushHistory σ s.stats.historyRef e) i =
      internalHistory m σ i ++ [e] := by
  have hs' : s = { id := strOr p.id "unknown",
                   name := strOr p.name "Unknown",
                   color := strOr p.color "#000000",
                   status := p.status,
                   stats := p.stats } := by
    rw [getStats, List.get?_map, hp] at hs
    exact (Option.some.inj hs).symm
  subst hs'
  refine ⟨rfl, fun e => ?_⟩
  have hp' : m.providers[i]? = some p := by
    simpa [← List.get?_eq_getElem?] using hp
  simp [internalHistory, pushHistory, hp, hp']

/-- Witness for the amended C8 on the concrete one-provider monitor. -/
theorem C8_amended_witness :
    internalHistory rmon0 (pushHistory store0 snap0.stats.historyRef (5, .fin 42)) 0 =
      internalHistory rmon0 store0 0 ++ [(5, .fin 42)] :=
  (C8_amended_shallow_copy rmon0 store0 0 rprov0 snap0 rfl rfl).2 (5, .fin 42)

/-- Auxiliary: `zipWith` at an index where both lists are defined. -/
theorem zipWith_get?_some (f : α → β → γ) :
    ∀ (as : List α) (bs : List β) (i : ℕ) (a : α) (b : β),
    as.get? i = some a → bs.get? i = some b →
    (List.zipWith f as bs).get? i = some (f a b) := by
  intro as
  induction as with
  | nil => intro bs i a b ha; simp at ha
  | cons x xs ih =>
    intro bs i a b ha hb
    cases bs with
    | nil => simp at hb
    | cons y ys =>
      cases i with
      | zero =>
        simp only [List.get?] at ha hb
        obtain rfl := Option.some.inj ha
        obtain rfl := Option.some.inj hb
        rfl
      | succ j =>
        simp only [List.get?] at ha hb ⊢
        exact ih ys j a b ha hb

/-- C4: a probe round over N providers increments `totalTests` by exactly
one, keeps all N providers, and updates each provider solely according to
its own probe outcome — a failing or throwing probe for one provider does
not prevent any other provider's update nor the increment (the model of
`runTests` folds in the all-settled join: every per-provider settlement
is applied, then the counter increments once). -/
theorem C4_runTests_round (ts : ℕ) (outcomes : List ProbeOutcome) (m : Monitor)
    (hlen : outcomes.length = m.providers.length) :
    (runTests ts outcomes m).totalTests = m.totalTests + 1 ∧
    (runTests ts outcomes m).providers.length = m.providers.length ∧
    ∀ i o p, outcomes.get? i = some o → m.providers.get? i = some p →
      (runTests ts outcomes m).providers.get? i = some (testProviderStep ts o p) := by
  refine ⟨rfl, ?_, ?_⟩
  · simp [runTests, hlen]
  · intro i o p ho hp
    exact zipWith_get?_some _ _ _ _ _ _ ho hp

/-- Witness for C4: a one-provider round whose probe succeeds in 12ms. -/
theorem C4_runTests_witness :
    (runTests 0 [.ok true (.fin 12)] (mkMonitor [some sampleRecord])).totalTests =
      (mkMonitor [some sampleRecord]).totalTests + 1 ∧
    (runTests 0 [.ok true (.fin 12)] (mkMonitor [some sampleRecord])).providers.get? 0 =
      some (testProviderStep 0 (.ok true (.fin 12)) sampleProvider) :=
  ⟨(C4_runTests_round 0 [.ok true (.fin 12)] (mkMonitor [some sampleRecord]) rfl).1,
   (C4_runTests_round 0 [.ok true (.fin 12)] (mkMonitor [some sampleRecord]) rfl).2.2
     0 _ _ rfl rfl⟩

/-- C1 counterexample: over the successful latencies `[0, 5]` the code
leaves `stats.min = 5` while the true minimum is 0 — the defensive
default `stats.min || Infinity` treats a stored minimum of 0 (a falsy
number) as missing and resets it to Infinity before the comparison. -/
theorem C1_counterexample :
    (foldSucc [0, 5]).min ≠ .fin (listMinQ [0, 5]) ∧
    (foldSucc [0, 5]).min = .fin 5 ∧ listMinQ [0, 5] = 0 := by
  decide

/-- Invariant of folding successful probes with positive finite latencies
into a state already holding aggregate values of earlier positive
latencies. -/
theorem foldSucc_invariant :
    ∀ (rest : List ℚ) (s : Stats) (mn mx tot : ℚ) (n : ℕ),
    (∀ l ∈ rest, 0 < l) → 0 < mn → 0 < n →
    s.min = .fin mn → s.max = .fin mx → s.total = .fin tot →
    s.count = n → s.successes = n → s.failures = 0 →
    s.avg = .fin (jround (tot / (n : ℚ))) →
    ((rest.foldl (fun s l => updateStats 0 (.num (.fin l)) true s) s).min
        = .fin (rest.foldl min mn) ∧
     (rest.foldl (fun s l => updateStats 0 (.num (.fin l)) true s) s).max
        = .fin (rest.foldl max mx) ∧
     (rest.foldl (fun s l => updateStats 0 (.num (.fin l)) true s) s).total
        = .fin (tot + rest.sum) ∧
     (rest.foldl (fun s l => updateStats 0 (.num (.fin l)) true s) s).count
        = n + rest.length ∧
     (rest.foldl (fun s l => updateStats 0 (.num (.fin l)) true s) s).successes
        = n + rest.length ∧
     (rest.foldl (fun s l => updateStats 0 (.num (.fin l)) true s) s).failures = 0 ∧
     (rest.foldl (fun s l => updateStats 0 (.num (.fin l)) true s) s).avg
        = .fin (jround ((tot + rest.sum) / ((n : ℚ) + (rest.length : ℚ))))) := by
  intro rest
  induction rest with
  | nil =>
    intro s mn mx tot n hpos hmn hn hmin hmax htot hcount hsucc hfail havg
    refine ⟨hmin, hmax, by simpa using htot, by simpa using hcount,
      by simpa using hsucc, hfail, ?_⟩
    simpa using havg
  | cons l rest ih =>
    intro s mn mx tot n hpos hmn hn hmin hmax htot hcount hsucc hfail havg
    have hl : 0 < l := hpos l (List.mem_cons_self _ _)
    have hrest : ∀ x ∈ rest, 0 < x := fun x hx => hpos x (List.mem_cons_of_mem _ hx)
    set s1 := updateStats 0 (.num (.fin l)) true s with hs1
    have hupd := updateStats_success 0 (.fin l) s rfl
    have h1min : s1.min = .fin (min mn l) := by
      simp [hs1, hupd, hmin, jsOr_fin_inf (ne_of_gt hmn), jsMin_fin_fin]
    have h1max : s1.max = .fin (max mx l) := by
      simp [hs1, hupd, hmax, jsOr_fin_zero, jsMax_fin_fin]
    have h1tot : s1.total = .fin (tot + l) := by
      simp [hs1, hupd, htot, jsOr_fin_zero, JSNum.add]
    have h1count : s1.count = n + 1 := by
      simp [hs1, hupd, hcount, natOr_zero]
    have h1succ : s1.successes = n + 1 := by
      simp [hs1, hupd, hsucc, natOr_zero]
    have h1fail : s1.failures = 0 := by
      simp [hs1, hupd, hfail]
    have h1avg : s1.avg = .fin (jround ((tot + l) / ((n + 1 : ℕ) : ℚ))) := by
      simp [hs1, hupd, htot, hsucc, jsOr_fin_zero, natOr_zero, JSNum.add,
        divNat_fin_succ, JSNum.round]
    have hmain := ih s1 (min mn l) (max mx l) (tot + l) (n + 1) hrest
      (lt_min hmn hl) (Nat.succ_pos n) h1min h1max h1tot h1count h1succ h1fail
      (by rw [h1avg])
    obtain ⟨e1, e2, e3, e4, e5, e6, e7⟩ := hmain
    refine ⟨by simpa [hs1] using e1, by simpa [hs1] using e2, ?_, ?_, ?_, ?_, ?_⟩
    · rw [List.foldl_cons, ← hs1, e3, List.sum_cons]
      ring_nf
    · rw [List.foldl_cons, ← hs1, e4, List.length_cons]
      omega
    · rw [List.foldl_cons, ← hs1, e5, List.length_cons]
      omega
    · rw [List.foldl_cons, ← hs1]
      exact e6
    · rw [List.foldl_cons, ← hs1, e7, List.sum_cons, List.length_cons]
      have harg : (tot + l) + rest.sum = tot + (l + rest.sum) := by ring
      have harg2 : (((n + 1 : ℕ)) : ℚ) + (rest.length : ℚ)
          = (n : ℚ) + ((rest.length + 1 : ℕ) : ℚ) := by push_cast; ring
      rw [harg, harg2]

/-- C1 amended: for every nonempty sequence of successful probes whose
latencies are finite and strictly positive, after folding them into the
initial stats via `updateStats` the fields satisfy
`min = min(L1..Ln)`, `max = max(L1..Ln)`, `avg = round(sum/n)`,
`count = n`, `successes = n`, `failures = 0`.  (A latency equal to 0 —
a value the probe pipeline can produce, since elapsed times are rounded
down to whole milliseconds — breaks the `min` clause because of the
falsy-guard `stats.min || Infinity`; see the counterexample.) -/
theorem C1_amended_success_stats (a : ℚ) (rest : List ℚ)
    (hpos : ∀ l ∈ (a :: rest), 0 < l) :
    (foldSucc (a :: rest)).min = .fin (listMinQ (a :: rest)) ∧
    (foldSucc (a :: rest)).max = .fin (listMaxQ (a :: rest)) ∧
    (foldSucc (a :: rest)).avg
      = .fin (jround ((a :: rest).sum / (((a :: rest).length : ℕ) : ℚ))) ∧
    (foldSucc (a :: rest)).count = (a :: rest).length ∧
    (foldSucc (a :: rest)).successes = (a :: rest).length ∧
    (foldSucc (a :: rest)).failures = 0 := by
  have ha : 0 < a := hpos a (List.mem_cons_self _ _)
  have hrest : ∀ x ∈ rest, 0 < x := fun x hx => hpos x (List.mem_cons_of_mem _ hx)
  set s1 := updateStats 0 (.num (.fin a)) true initStats with hs1
  have hupd := updateStats_success 0 (.fin a) initStats rfl
  have h1min : s1.min = .fin a := by
    rw [hs1, hupd]
    simp [initStats, jsOr, JSNum.truthy, jsMin_inf_fin]
  have h1max : s1.max = .fin a := by
    rw [hs1, hupd]
    simp [initStats, jsOr_fin_zero, jsMax_fin_fin, max_eq_right ha.le]
  have h1tot : s1.total = .fin a := by
    rw [hs1, hupd]
    simp [initStats, jsOr_fin_zero, JSNum.add]
  have h1count : s1.count = 1 := by
    rw [hs1, hupd]
    simp [initStats, natOr]
  have h1succ : s1.successes = 1 := by
    rw [hs1, hupd]
    simp [initStats, natOr]
  have h1fail : s1.failures = 0 := by
    rw [hs1, hupd]
    simp [initStats]
  have h1avg : s1.avg = .fin (jround (a / ((1 : ℕ) : ℚ))) := by
    rw [hs1, hupd]
    simp [initStats, natOr, jsOr_fin_zero, JSNum.add, JSNum.divNat, JSNum.round]
  have hmain := foldSucc_invariant rest s1 a a a 1 hrest ha one_pos
    h1min h1max h1tot h1count h1succ h1fail h1avg
  obtain ⟨e1, e2, e3, e4, e5, e6, e7⟩ := hmain
  have hfold : foldSucc (a :: rest)
      = rest.foldl (fun s l => updateStats 0 (.num (.fin l)) true s) s1 := by
    simp [foldSucc, hs1]
  refine ⟨?_, ?_, ?_, ?_, ?_, ?_⟩
  · rw [hfold, e1]; rfl
  · rw [hfold, e2]; rfl
  · rw [hfold, e7, List.sum_cons, List.length_cons]
    have harg2 : ((1 : ℕ) : ℚ) + (rest.length : ℚ)
        = ((rest.length + 1 : ℕ) : ℚ) := by push_cast; ring
    rw [harg2]
  · rw [hfold, e4, List.length_cons]; omega
  · rw [hfold, e5, List.length_cons]; omega
  · rw [hfold]; exact e6

/-- Witness for the amended C1 on the concrete latencies `[3, 7]`. -/
theorem C1_amended_witness :
    (foldSucc [3, 7]).min = .fin (listMinQ [3, 7]) ∧
    (foldSucc [3, 7]).max = .fin (listMaxQ [3, 7]) ∧
    (foldSucc [3, 7]).count = 2 :=
  ⟨(C1_amended_success_stats 3 [7] (by decide)).1,
   (C1_amended_success_stats 3 [7] (by decide)).2.1,
   (C1_amended_success_stats 3 [7] (by decide)).2.2.2.1⟩

/-!  Lemmas about the suffix operation used to describe the history cap. -/

theorem takeLast_all {α : Type} (l : List α) (n : ℕ) (h : l.length ≤ n) :
    takeLast l n = l := by
  unfold takeLast
  have hz : l.length - n = 0 := by omega
  simp [hz]

theorem takeLast_length_le {α : Type} (l : List α) (n : ℕ) :
    (takeLast l n).length ≤ n := by
  simp [takeLast]
  omega

theorem takeLast_append_of_le {α : Type} (p l : List α) (n : ℕ) (h : n ≤ l.length) :
    takeLast (p ++ l) n = takeLast l n := by
  induction p with
  | nil => rfl
  | cons x xs ih =>
    unfold takeLast at ih ⊢
    simp only [List.cons_append, List.length_cons, List.length_append] at ih ⊢
    have hstep : xs.length + l.length + 1 - n = (xs.length + l.length - n) + 1 := by omega
    rw [hstep]
    simpa using ih

theorem takeLast_takeLast_append {α : Type} (a b : List α) (n : ℕ) :
    takeLast (takeLast a n ++ b) n = takeLast (a ++ b) n := by
  by_cases h : a.length ≤ n
  · rw [takeLast_all a n h]
  · have hlen : (takeLast a n).length = n := by
      simp [takeLast]
      omega
    have hsplit : a = a.take (a.length - n) ++ takeLast a n :=
      (List.take_append_drop _ a).symm
    calc takeLast (takeLast a n ++ b) n
        = takeLast (a.take (a.length - n) ++ (takeLast a n ++ b)) n :=
          (takeLast_append_of_le _ _ n (by simp [hlen])).symm
      _ = takeLast (a ++ b) n := by rw [← List.append_assoc, ← hsplit]

theorem push_shift_takeLast {α : Type} (h : List α) (x : α) (hle : h.length ≤ 100) :
    (if 100 < (h ++ [x]).length then (h ++ [x]).drop 1 else h ++ [x])
      = takeLast (h ++ [x]) 100 := by
  by_cases hc : 100 < h.length + 1
  · have h100 : h.length = 100 := by omega
    rw [if_pos (by simp [h100])]
    unfold takeLast
    simp [h100]
  · rw [if_neg (by simp; omega), takeLast_all]
    simp
    omega

/-- History evolution of `foldProbes`: if the current history is the most
recent 100 of some chronological list `xs`, then after any further events
it is the most recent 100 of `xs` extended by the new success entries. -/
theorem foldProbes_history :
    ∀ (evs : List (ℕ × JSVal × Bool)) (s : Stats) (xs : List (ℕ × JSNum)),
    s.history = takeLast xs 100 →
    (foldProbes evs s).history = takeLast (xs ++ successEntries evs) 100 := by
  intro evs
  induction evs with
  | nil =>
    intro s xs h
    simpa [foldProbes, successEntries] using h
  | cons e evs ih =>
    intro s xs h
    obtain ⟨ts, l, suc⟩ := e
    have hfold : foldProbes ((ts, l, suc) :: evs) s
        = foldProbes evs (updateStats ts l suc s) := by
      simp [foldProbes]
    rcases hrec : recordedSuccess l suc with - | n
    · have hist_eq : (updateStats ts l suc s).history = s.history := by
        rw [updateStats_failure ts l suc s hrec]
      rw [hfold, ih _ xs (by rw [hist_eq]; exact h)]
      simp [successEntries, List.filterMap_cons, hrec]
    · have hcase : l = .num n ∧ suc = true ∧ n.isNaN = false := by
        cases suc <;> cases l <;> simp_all [recordedSuccess]
        exact hrec.2 ▸ hrec.1
      rcases hcase with ⟨rfl, rfl, hn⟩
      have hlen : s.history.length ≤ 100 := by
        rw [h]
        exact takeLast_length_le _ _
      have hist_eq : (updateStats ts (.num n) true s).history
          = takeLast (xs ++ [(ts, n)]) 100 := by
        rw [updateStats_success ts n s hn]
        show (if 100 < (s.history ++ [(ts, n)]).length
              then (s.history ++ [(ts, n)]).drop 1
              else s.history ++ [(ts, n)]) = _
        rw [push_shift_takeLast s.history (ts, n) hlen, h, takeLast_takeLast_append]
      rw [hfold, ih _ (xs ++ [(ts, n)]) hist_eq]
      simp [successEntries, List.filterMap_cons, recordedSuccess, hn]

/-- C2: for every sequence of probe events folded from the initial state,
the history is exactly the suffix of the most recent (at most 100)
success entries, in chronological insertion order — so it never exceeds
100 entries, failed probes contribute nothing, and on overflow the oldest
entry is the one evicted. -/
theorem C2_history_bounded_fifo (evs : List (ℕ × JSVal × Bool)) :
    (foldProbes evs initStats).history = takeLast (successEntries evs) 100 ∧
    (foldProbes evs initStats).history.length ≤ 100 := by
  have h := foldProbes_history evs initStats [] rfl
  rw [List.nil_append] at h
  exact ⟨h, h ▸ takeLast_length_le _ _⟩

/-!  Order lemmas for the JavaScript strict comparison on numbers. -/

theorem jsLt_irrefl (a : JSNum) : jsLt a a = false := by
  cases a <;> simp [jsLt]

theorem jsLt_trans {a b c : JSNum} (h1 : jsLt a b = true) (h2 : jsLt b c = true) :
    jsLt a c = true := by
  cases a <;> cases b <;> cases c <;> simp_all [jsLt]
  linarith

theorem jsLt_trichotomy {a b : JSNum} (ha : a.isNaN = false) (hb : b.isNaN = false) :
    jsLt a b = true ∨ jsLt b a = true ∨ a = b := by
  cases a <;> cases b <;> simp_all [jsLt, JSNum.isNaN]
  rename_i qa qb
  rcases lt_trichotomy qa qb with h | h | h
  · exact Or.inl h
  · exact Or.inr (Or.inr h)
  · exact Or.inr (Or.inl h)

/-- The reduce of `getFastestProvider` selects the first element of the
list attaining the minimal `current` value: it is a member, no element is
strictly below it, and every element strictly before it is strictly
above it. -/
theorem pickFastest_first_min :
    ∀ (rest : List Provider) (f : Provider),
    (curVal f).isNaN = false →
    (∀ c ∈ rest, (curVal c).isNaN = false) →
    ∃ i, (f :: rest).get? i = some (pickFastest f rest) ∧
      (∀ j q, (f :: rest).get? j = some q →
        jsLt (curVal q) (curVal (pickFastest f rest)) = false) ∧
      (∀ j q, j < i → (f :: rest).get? j = some q →
        jsLt (curVal (pickFastest f rest)) (curVal q) = true) := by
  intro rest
  induction rest with
  | nil =>
    intro f hf hrest
    refine ⟨0, rfl, ?_, ?_⟩
    · intro j q hq
      cases j with
      | zero =>
        obtain rfl := Option.some.inj hq
        exact jsLt_irrefl _
      | succ j => simp [List.get?] at hq
    · intro j q hj hq
      omega
  | cons c rest ih =>
    intro f hf hrest
    have hc : (curVal c).isNaN = false := hrest c (List.mem_cons_self _ _)
    have hrest2 : ∀ x ∈ rest, (curVal x).isNaN = false :=
      fun x hx => hrest x (List.mem_cons_of_mem _ hx)
    cases hlt : jsLt (curVal c) (curVal f) with
    | true =>
      have hfold : pickFastest f (c :: rest) = pickFastest c rest := by
        simp [pickFastest, hlt]
      obtain ⟨i, hi, hmin, hbefore⟩ := ih c hc hrest2
      rw [hfold]
      refine ⟨i + 1, by simpa using hi, ?_, ?_⟩
      · intro j q hq
        cases j with
        | zero =>
          obtain rfl := Option.some.inj hq
          cases hqF : jsLt (curVal f) (curVal (pickFastest c rest)) with
          | false => rfl
          | true =>
            have h2 := jsLt_trans hlt hqF
            have h3 := hmin 0 c rfl
            rw [h2] at h3
            simp at h3
        | succ j =>
          exact hmin j q (by simpa using hq)
      · intro j q hj hq
        cases j with
        | zero =>
          obtain rfl := Option.some.inj hq
          have hF : (curVal (pickFastest c rest)).isNaN = false :=
            hrest _ (List.get?_mem hi)
          rcases jsLt_trichotomy hF hc with h | h | h
          · exact jsLt_trans h hlt
          · have h3 := hmin 0 c rfl
            rw [h] at h3
            simp at h3
          · rw [h]
            exact hlt
        | succ j =>
          exact hbefore j q (by omega) (by simpa using hq)
    | false =>
      have hfold : pickFastest f (c :: rest) = pickFastest f rest := by
        simp [pickFastest, hlt]
      obtain ⟨i, hi, hmin, hbefore⟩ := ih f hf hrest2
      rw [hfold]
      cases i with
      | zero =>
        have hFf : pickFastest f rest = f := (Option.some.inj hi).symm
        refine ⟨0, ?_, ?_, ?_⟩
        · rw [hFf]
          rfl
        · intro j q hq
          cases j with
          | zero =>
            obtain rfl := Option.some.inj hq
            rw [hFf]
            exact jsLt_irrefl _
          | succ j =>
            cases j with
            | zero =>
              obtain rfl := Option.some.inj (by simpa using hq)
              rw [hFf]
              exact hlt
            | succ j =>
              exact hmin (j + 1) q (by simpa using hq)
        · intro j q hj hq
          omega
      | succ k =>
        refine ⟨k + 2, by simpa using hi, ?_, ?_⟩
        · intro j q hq
          cases j with
          | zero =>
            obtain rfl := Option.some.inj hq
            exact hmin 0 f rfl
          | succ j =>
            cases j with
            | zero =>
              obtain rfl := Option.some.inj (by simpa using hq)
              cases hcF : jsLt (curVal c) (curVal (pickFastest f rest)) with
              | false => rfl
              | true =>
                have hFf := hbefore 0 f (by omega) rfl
                have h2 := jsLt_trans hcF hFf
                rw [hlt] at h2
                simp at h2
            | succ j =>
              exact hmin (j + 1) q (by simpa using hq)
        · intro j q hj hq
          cases j with
          | zero =>
            obtain rfl := Option.some.inj hq
            exact hbefore 0 f (by omega) rfl
          | succ j =>
            cases j with
            | zero =>
              obtain rfl := Option.some.inj (by simpa using hq)
              have hFf := hbefore 0 f (by omega) rfl
              have hF : (curVal (pickFastest f rest)).isNaN = false := by
                rcases List.mem_cons.mp (List.get?_mem hi) with h | h
                · rw [h]
                  exact hf
                · exact hrest2 _ h
              rcases jsLt_trichotomy hF hc with h | h | h
              · exact h
              · have h2 := jsLt_trans h hFf
                rw [hlt] at h2
                simp at h2
              · rw [h] at hFf
                rw [hlt] at hFf
                simp at hFf
            | succ j =>
              exact hbefore (j + 1) q (by omega) (by simpa using hq)

/-- C7: `getFastestProvider` returns none exactly when no provider has a
present `current` value; otherwise it returns the first provider — in
registry order among those with a present `current` — whose `current`
value is minimal, ties resolved in favor of the earlier provider.
Stated under the invariant that present `current` values are not `NaN`
(the success branch of `updateStats` never stores `NaN`). -/
theorem C7_fastest_first_minimal (m : Monitor)
    (hnan : ∀ p ∈ m.providers, ∀ x, p.stats.current = some x → x.isNaN = false) :
    (getFastestProvider m = none ↔ onlineProviders m = []) ∧
    (∀ p, getFastestProvider m = some p →
      ∃ i, (onlineProviders m).get? i = some p ∧
        (∀ j q, (onlineProviders m).get? j = some q →
          jsLt (curVal q) (curVal p) = false) ∧
        (∀ j q, j < i → (onlineProviders m).get? j = some q →
          jsLt (curVal p) (curVal q) = true)) := by
  have hmemnan : ∀ c ∈ onlineProviders m, (curVal c).isNaN = false := by
    intro c hcmem
    have hc1 : c ∈ m.providers := (List.mem_filter.mp hcmem).1
    have hc2 : currentIsNumber c = true := (List.mem_filter.mp hcmem).2
    cases hcur : c.stats.current with
    | none => simp [currentIsNumber, hcur] at hc2
    | some x =>
      have hx := hnan c hc1 x hcur
      simp [curVal, hcur, hx]
  constructor
  · cases honline : onlineProviders m with
    | nil => simp [getFastestProvider, honline]
    | cons f rest => simp [getFastestProvider, honline]
  · intro p hp
    cases honline : onlineProviders m with
    | nil => simp [getFastestProvider, honline] at hp
    | cons f rest =>
      have hmem2 : ∀ c ∈ (f :: rest), (curVal c).isNaN = false := honline ▸ hmemnan
      obtain ⟨i, hi, hmin, hbefore⟩ := pickFastest_first_min rest f
        (hmem2 f (List.mem_cons_self _ _))
        (fun c hc => hmem2 c (List.mem_cons_of_mem _ hc))
      have hp' : some (pickFastest f rest) = some p := by
        rw [← hp]
        simp [getFastestProvider, honline, pickFastest]
      have hp2 : pickFastest f rest = p := Option.some.inj hp'
      refine ⟨i, ?_, ?_, ?_⟩
      · rw [← hp2]
        exact hi
      · intro j q hq
        rw [← hp2]
        exact hmin j q hq
      · intro j q hj hq
        rw [← hp2]
        exact hbefore j q hj hq

/-- Witness for C7: with a 120ms tie between the first-registered and the
second-registered provider, the first one is selected. -/
theorem C7_fastest_witness :
    ∃ i, (onlineProviders monAB).get? i = some provA ∧
      (∀ j q, (onlineProviders monAB).get? j = some q →
        jsLt (curVal q) (curVal provA) = false) ∧
      (∀ j q, j < i → (onlineProviders monAB).get? j = some q →
        jsLt (curVal provA) (curVal q) = true) :=
  (C7_fastest_first_minimal monAB (by
    intro p hp x hx
    have hp2 : p = provA ∨ p = provB := by simpa [monAB] using hp
    rcases hp2 with rfl | rfl
    · have hcur : provA.stats.current = some (JSNum.fin 120) := rfl
      rw [hcur] at hx
      obtain rfl := Option.some.inj hx
      rfl
    · have hcur : provB.stats.current = some (JSNum.fin 120) := rfl
      rw [hcur] at hx
      obtain rfl := Option.some.inj hx
      rfl)).2 provA (by decide)

end LatencyMon
